import Mathlib

/-!
Verification of the XCMS MS2-matching core: a shallow embedding, in Lean, of
the feature locator (`ms2_extractor.find_matching_xcms_peak`), the MS2
correlator (`ms2_extractor.extract_ms2_spectra`), the traditional spectral
matcher (`spectral_matcher.match_with_traditional`, `count_matched_peaks`),
the results processor (`results_processor.calculate_confidence_score`,
`find_peak_by_mz_rt`, `process_matching_results`) and the workflow fallback
logic of `main.match_spectra`.  Python floats are embedded as rationals;
Python `None` as `Option`; exceptions as `Except`/`Option`.
-/

namespace XCMSVis

/-! ## Data model and embedded operations -/

/-- An XCMS feature row as produced by `data_loader.load_xcms_data`
(the fields the matching core reads: name, m/z, retention time). -/
structure XPeak where
  name : String
  mz : ℚ
  rt : ℚ
  deriving DecidableEq

/-- The AND-bound of `find_matching_xcms_peak` / `find_peak_by_mz_rt`:
`mz_diff <= mz_tolerance and rt_diff <= rt_tolerance`. -/
def withinBounds (mz rt mzTol rtTol : ℚ) (p : XPeak) : Bool :=
  decide (|p.mz - mz| ≤ mzTol) && decide (|p.rt - rt| ≤ rtTol)

/-- The combined normalized distance
`(mz_diff / mz_tolerance) + (rt_diff / rt_tolerance)`. -/
def combinedScore (mz rt mzTol rtTol : ℚ) (p : XPeak) : ℚ :=
  |p.mz - mz| / mzTol + |p.rt - rt| / rtTol

/-- One iteration of the loop body of `find_matching_xcms_peak`: keep the
running best (peak, score) pair, replacing it when a candidate scores
strictly lower (`if score < best_score`).  `none` is the initial
`best_match = None / best_score = inf` state. -/
def fmStep (mz rt mzTol rtTol : ℚ) (best : Option (XPeak × ℚ)) (p : XPeak) :
    Option (XPeak × ℚ) :=
  if withinBounds mz rt mzTol rtTol p then
    let s := combinedScore mz rt mzTol rtTol p
    match best with
    | none => some (p, s)
    | some q => if s < q.2 then some (p, s) else some q
  else best

/-- `ms2_extractor.find_matching_xcms_peak`: linear scan keeping the
candidate (a peak satisfying both tolerance bounds) with the minimal
combined normalized distance; strict improvement only, so the earliest
candidate wins ties; `None` when no candidate exists. -/
def find_matching_xcms_peak (xcms_peaks : List XPeak) (mz rt mzTol rtTol : ℚ) :
    Option XPeak :=
  (xcms_peaks.foldl (fmStep mz rt mzTol rtTol) none).map Prod.fst

/-- `results_processor.find_peak_by_mz_rt`: returns the *first* peak
satisfying both tolerance bounds (early `return` inside the loop). -/
def find_peak_by_mz_rt (peaks : List XPeak) (mz rt mzTol rtTol : ℚ) :
    Option XPeak :=
  peaks.find? (withinBounds mz rt mzTol rtTol)

/-- `data_loader.get_peak_info`: first peak whose name equals the query. -/
def get_peak_info (peaks : List XPeak) (peak_name : String) : Option XPeak :=
  peaks.find? (fun p => p.name == peak_name)

/-- Invariant of the running `(best_match, best_score)` accumulator after the
loop of `find_matching_xcms_peak` has consumed the prefix `seen`:
either no candidate was seen, or the accumulator holds the earliest
minimal-score candidate of `seen`. -/
def FMInv (mz rt mzTol rtTol : ℚ) (seen : List XPeak)
    (acc : Option (XPeak × ℚ)) : Prop :=
  match acc with
  | none => ∀ q ∈ seen, withinBounds mz rt mzTol rtTol q = false
  | some qs =>
      withinBounds mz rt mzTol rtTol qs.1 = true ∧
      qs.2 = combinedScore mz rt mzTol rtTol qs.1 ∧
      (∀ x ∈ seen, withinBounds mz rt mzTol rtTol x = true →
        qs.2 ≤ combinedScore mz rt mzTol rtTol x) ∧
      ∃ l1 l2, seen = l1 ++ qs.1 :: l2 ∧
        ∀ x ∈ l1, withinBounds mz rt mzTol rtTol x = true →
          qs.2 < combinedScore mz rt mzTol rtTol x

/-- The peak-matching test of `count_matched_peaks`:
`abs(mz_val - mz_val2) <= mz_tolerance`. -/
def near (tol q m : ℚ) : Bool :=
  decide (|q - m| ≤ tol)

/-- Inner loop of `count_matched_peaks`: scan the enumerated library m/z
list, skip claimed indices (`if j in used_indices: continue`), return the
first unclaimed index within tolerance (`break`), else `None`. -/
def findFirstUnused (tol q : ℚ) (used : Finset ℕ) : List (ℕ × ℚ) → Option ℕ
  | [] => none
  | (j, m) :: rest =>
      if j ∈ used then findFirstUnused tol q used rest
      else if near tol q m then some j
      else findFirstUnused tol q used rest

/-- Outer loop of `count_matched_peaks` over the query m/z list, carrying
the set of claimed library indices. -/
def countAux (tol : ℚ) (lib : List ℚ) : List ℚ → Finset ℕ → ℕ
  | [], _ => 0
  | q :: qs, used =>
      match findFirstUnused tol q used lib.enum with
      | some j => 1 + countAux tol lib qs (insert j used)
      | none => countAux tol lib qs used

/-- `spectral_matcher.count_matched_peaks` applied to the two spectra's m/z
arrays: greedy first-fit at-most-one-to-one matching. -/
def count_matched_peaks (mz1 mz2 : List ℚ) (mz_tolerance : ℚ) : ℕ :=
  countAux mz_tolerance mz2 mz1 ∅

/-- A query spectrum as consumed by the matcher (the fields it reads). -/
structure QuerySpec where
  precursorMz : Option ℚ
  retentionTime : Option ℚ
  peaksMz : List ℚ
  deriving DecidableEq

/-- A library spectrum: the metadata fields `match_with_traditional`
reads (compound identifiers other than the name are opaque pass-through
payload and omitted). -/
structure LibSpec where
  spectrumId : Option String
  compoundName : Option String
  name : Option String
  peaksMz : List ℚ
  deriving DecidableEq

/-- Python `x or y` on an optional string: `None` and `""` are falsy. -/
def pyOrStr (x : Option String) (y : String) : String :=
  match x with
  | some s => if s = "" then y else s
  | none => y

/-- One entry of the per-query `matches` list (`match_dict`).  `libOrder`
records the position at which the entry was appended (the library scan
order), making the list's insertion order explicit. -/
structure MatchEntry where
  libraryId : String
  compoundName : String
  score : ℚ
  algorithm : String
  matchedPeaks : ℕ
  totalPeaks : ℕ
  libOrder : ℕ
  deriving DecidableEq

/-- The inner library loop of `match_with_traditional`: score each library
spectrum, skip `None`/below-`min_score` pairs, append a `match_dict`. -/
def buildMatches (pair : ℚ → QuerySpec → LibSpec → Option ℚ) (alg : String)
    (mzTol minScore : ℚ) (i : ℕ) (q : QuerySpec) :
    List LibSpec → ℕ → List MatchEntry
  | [], _ => []
  | l :: rest, j =>
      match pair mzTol q l with
      | none => buildMatches pair alg mzTol minScore i q rest (j + 1)
      | some s =>
          if s < minScore then buildMatches pair alg mzTol minScore i q rest (j + 1)
          else
            { libraryId := l.spectrumId.getD ("lib_" ++ toString i),
              compoundName := pyOrStr l.compoundName (l.name.getD "Unknown"),
              score := s,
              algorithm := alg,
              matchedPeaks := count_matched_peaks q.peaksMz l.peaksMz mzTol,
              totalPeaks := q.peaksMz.length,
              libOrder := j } :: buildMatches pair alg mzTol minScore i q rest (j + 1)

/-- The sort key of `matches.sort(key=lambda x: x["score"], reverse=True)`. -/
def scoreGE (a b : MatchEntry) : Prop :=
  b.score ≤ a.score

instance : DecidableRel scoreGE :=
  fun a b => inferInstanceAs (Decidable (b.score ≤ a.score))

/-- Python's `list.sort` is stable; a stable descending-by-score sort is
embedded as insertion sort with the `scoreGE` relation, followed by the
`[:top_n]` truncation. -/
def rankMatches (topN : ℕ) (ms : List MatchEntry) : List MatchEntry :=
  (List.insertionSort scoreGE ms).take topN

/-- The per-query result dictionary of `match_with_traditional` (whose
`query_spectrum` sub-dictionary has no `feature_name` key: `featureName`
is `none`). -/
structure QueryResult where
  queryIndex : ℕ
  precursorMz : Option ℚ
  retentionTime : Option ℚ
  featureName : Option String
  matchList : List MatchEntry
  bestMatch : Option MatchEntry
  deriving DecidableEq

/-- Body of the outer query loop of `match_with_traditional`:
`best_match = top_matches[0] if top_matches else None`. -/
def processQuery (pair : ℚ → QuerySpec → LibSpec → Option ℚ) (alg : String)
    (mzTol minScore : ℚ) (topN : ℕ) (i : ℕ) (q : QuerySpec)
    (lib : List LibSpec) : QueryResult :=
  let tops := rankMatches topN (buildMatches pair alg mzTol minScore i q lib 0)
  ⟨i, q.precursorMz, q.retentionTime, none, tops, tops.head?⟩

/-- The query loop of `match_with_traditional` after strategy selection. -/
def runTraditional (pair : ℚ → QuerySpec → LibSpec → Option ℚ) (alg : String)
    (qs : List QuerySpec) (lib : List LibSpec) (mzTol minScore : ℚ)
    (topN : ℕ) : List QueryResult :=
  qs.enum.map (fun p => processQuery pair alg mzTol minScore topN p.1 p.2 lib)

/-- `spectral_matcher.match_with_traditional`: dispatch on the algorithm
name (raising `ValueError` for an unknown name before any scoring), then
run the per-query matching loop. -/
def match_with_traditional (dp cos mc : ℚ → QuerySpec → LibSpec → Option ℚ)
    (alg : String) (qs : List QuerySpec) (lib : List LibSpec)
    (mzTol minScore : ℚ) (topN : ℕ) : Except String (List QueryResult) :=
  if alg = "dot_product" then
    Except.ok (runTraditional dp alg qs lib mzTol minScore topN)
  else if alg = "cosine" then
    Except.ok (runTraditional cos alg qs lib mzTol minScore topN)
  else if alg = "modified_cosine" then
    Except.ok (runTraditional mc alg qs lib mzTol minScore topN)
  else
    Except.error ("Unknown algorithm: " ++ alg)

/-- Non-increasing score order with equal scores kept in insertion order. -/
def tieOrdered (a b : MatchEntry) : Prop :=
  b.score ≤ a.score ∧ (a.score = b.score → a.libOrder < b.libOrder)

/-- `min(1.0, max(0.0, x))`. -/
def clamp01 (x : ℚ) : ℚ :=
  min 1 (max 0 x)

/-- `results_processor.calculate_confidence_score`.  Float literals embed
as the corresponding decimal rationals. -/
def calculate_confidence_score (ms : List MatchEntry) (best : Option MatchEntry) : ℚ :=
  match best with
  | none => 0
  | some b =>
      let base := b.score
      let base2 :=
        if 1 < ms.length then
          let topScores := (ms.take 3).map (fun m => m.score)
          let avgTop := topScores.sum / (topScores.length : ℚ)
          base + min (0.2 : ℚ) ((avgTop - base) * (0.5 : ℚ))
        else base
      let peakRatio : ℚ :=
        if 0 < b.totalPeaks then (b.matchedPeaks : ℚ) / (b.totalPeaks : ℚ) else 0
      clamp01 (base2 * ((0.5 : ℚ) + (0.5 : ℚ) * peakRatio))

/-- Modelled from the spec (§4.5): the confidence formula as the spec
sentence states it, with the consistency boost clamped below at zero —
`min(0.2, max(0, (avg_top3 − base) * 0.5))` — and the peak-coverage factor
`0.5 + 0.5 * matched/total`.  Defined only for comparison with the code's
`calculate_confidence_score`. -/
def specConfidenceFormula (ms : List MatchEntry) (b : MatchEntry) : ℚ :=
  let base := b.score
  let topScores := (ms.take 3).map (fun m => m.score)
  let avgTop := topScores.sum / (topScores.length : ℚ)
  let boost := min (0.2 : ℚ) (max 0 ((avgTop - base) * (0.5 : ℚ)))
  clamp01 ((base + boost) *
    ((0.5 : ℚ) + (0.5 : ℚ) * ((b.matchedPeaks : ℚ) / (b.totalPeaks : ℚ))))

/-- Python truthiness of an optional float: `None` and `0.0` are falsy
(the `if precursor_mz and rt:` guard of `process_matching_results`). -/
def pyTruthyQ : Option ℚ → Bool
  | none => false
  | some x => decide (x ≠ 0)

/-- One combined result of `results_processor.process_matching_results`. -/
structure ProcessedResult where
  featureName : String
  xcmsPeak : Option XPeak
  precursorMz : Option ℚ
  retentionTime : Option ℚ
  algorithm : String
  matchList : List MatchEntry
  bestMatch : Option MatchEntry
  matchCount : ℕ
  confidenceScore : ℚ
  deriving DecidableEq

/-- Loop body of `process_matching_results`: resolve the feature by name,
falling back to `find_peak_by_mz_rt` with its default tolerances
(0.01 Da, 30 s) when the name is unknown and both precursor m/z and RT
are truthy. -/
def processResult (xcms : List XPeak) (alg : String) (r : QueryResult) :
    ProcessedResult :=
  let featureName := r.featureName.getD ("Feature_" ++ toString r.queryIndex)
  let pk :=
    match get_peak_info xcms featureName with
    | some p => some p
    | none =>
        if pyTruthyQ r.precursorMz && pyTruthyQ r.retentionTime then
          find_peak_by_mz_rt xcms (r.precursorMz.getD 0) (r.retentionTime.getD 0)
            (0.01 : ℚ) (30 : ℚ)
        else none
  ⟨featureName, pk, r.precursorMz, r.retentionTime, alg, r.matchList,
    r.bestMatch, r.matchList.length,
    calculate_confidence_score r.matchList r.bestMatch⟩

/-- `results_processor.process_matching_results`. -/
def process_matching_results (xcms : List XPeak) (results : List QueryResult)
    (alg : String) : List ProcessedResult :=
  results.map (processResult xcms alg)

/-- A raw spectrum as exposed by the external reader (`pymzml`): ms-level,
optional precursor m/z, optional scan time (minutes), peak list. -/
structure RawSpectrum where
  msLevel : ℕ
  precursorMz : Option ℚ
  scanTimeMinutes : Option ℚ
  peaks : List (ℚ × ℚ)
  deriving DecidableEq

/-- The per-spectrum output dictionary of `extract_ms2_spectra`. -/
structure MS2Entry where
  featureName : String
  precursorMz : ℚ
  rt : ℚ
  peaks : List (ℚ × ℚ)
  nPeaks : ℕ
  matchedXcmsPeak : String
  deriving DecidableEq

/-- Loop body of `extract_ms2_spectra` for one raw spectrum: only MS2
spectra; drop when precursor m/z or retention time is unavailable; filter
peaks to intensity ≥ `min_intensity`; drop when no peak survives; else
locate the feature (`find_matching_xcms_peak`) and keep the spectrum
tagged with the feature's name (or drop it when no feature matches). -/
def processSpectrum (xcms : List XPeak) (mzTol rtTol minInt : ℚ)
    (s : RawSpectrum) : Option MS2Entry :=
  if s.msLevel = 2 then
    match s.precursorMz, s.scanTimeMinutes with
    | some pm, some st =>
        if (s.peaks.filter (fun p => decide (minInt ≤ p.2))).isEmpty then none
        else
          match find_matching_xcms_peak xcms pm (st * 60) mzTol rtTol with
          | some pk =>
              some ⟨pk.name, pm, st * 60,
                s.peaks.filter (fun p => decide (minInt ≤ p.2)),
                (s.peaks.filter (fun p => decide (minInt ≤ p.2))).length, pk.name⟩
          | none => none
    | _, _ => none
  else none

/-- `ms2_extractor.extract_ms2_spectra` over an in-memory raw-spectrum
sequence. -/
def extract_ms2_spectra (raws : List RawSpectrum) (xcms : List XPeak)
    (mzTol rtTol minInt : ℚ) : List MS2Entry :=
  raws.filterMap (processSpectrum xcms mzTol rtTol minInt)

/-- Steps 3–4 of `main.match_spectra` (strategy selection, matching and
result processing).  The ms2query library is external: its availability
(`is_ms2query_available`) is a Boolean parameter and a run of
`match_with_ms2query` is an abstract `Except` parameter whose `error`
case models a raised exception.  The Python wraps the ms2query branch in
try/except: unavailability raises `ImportError`, and every failure falls
back to `match_with_traditional` with `algorithm="cosine"`, rebinding
`algorithm = "cosine"` for the rest of the run. -/
def matchSpectraCore (algorithm : String) (ms2qAvailable : Bool)
    (ms2qRun : Except String (List QueryResult))
    (dp cos mc : ℚ → QuerySpec → LibSpec → Option ℚ)
    (queries : List QuerySpec) (lib : List LibSpec) (xcms : List XPeak)
    (mzTol minScore : ℚ) (topN : ℕ) :
    Except String (String × List QueryResult × List ProcessedResult) :=
  let fallback : Except String (String × List QueryResult) :=
    (match_with_traditional dp cos mc "cosine" queries lib mzTol minScore topN).map
      (fun rs => ("cosine", rs))
  let matched : Except String (String × List QueryResult) :=
    if algorithm = "ms2query" then
      if ms2qAvailable then
        match ms2qRun with
        | Except.ok rs => Except.ok (algorithm, rs)
        | Except.error _ => fallback
      else fallback
    else
      (match_with_traditional dp cos mc algorithm queries lib mzTol minScore topN).map
        (fun rs => (algorithm, rs))
  matched.map (fun ar => (ar.1, ar.2, process_matching_results xcms ar.2 ar.1))

/-- A feature 0.009 Da off the query m/z 100 (within the 0.01 window). -/
def cexA : XPeak := ⟨"A", 100 + 9/1000, 10⟩

/-- A feature exactly at the query (m/z 100, RT 10). -/
def cexB : XPeak := ⟨"B", 100, 10⟩

/-- A best match with perfect score and full peak coverage. -/
def cexE1 : MatchEntry := ⟨"L1", "C1", 1, "cosine", 1, 1, 0⟩

/-- A runner-up match with score 0. -/
def cexE2 : MatchEntry := ⟨"L2", "C2", 0, "cosine", 0, 1, 1⟩

/-- A constant similarity strategy (score 1 for every pair). -/
def cexPair : ℚ → QuerySpec → LibSpec → Option ℚ := fun _ _ _ => some 1

/-- A one-peak query spectrum. -/
def cexQ : QuerySpec := ⟨some 100, some 10, [50]⟩

/-- A one-peak library spectrum. -/
def cexL : LibSpec := ⟨some "S1", some "Met", none, [50]⟩

/-- A query result with no matches, precursor m/z 100 and RT 10, and no
tagged feature name. -/
def cexQR : QueryResult := ⟨0, some 100, some 10, none, [], none⟩

/-! ## Theorems -/

theorem fmStep_none_eq (mz rt mzTol rtTol : ℚ) (p : XPeak)
    (hc : withinBounds mz rt mzTol rtTol p = true) :
    fmStep mz rt mzTol rtTol none p =
      some (p, combinedScore mz rt mzTol rtTol p) := by
  simp [fmStep, hc]

theorem fmStep_some_lt_eq (mz rt mzTol rtTol : ℚ) (p : XPeak) (q : XPeak × ℚ)
    (hc : withinBounds mz rt mzTol rtTol p = true)
    (hlt : combinedScore mz rt mzTol rtTol p < q.2) :
    fmStep mz rt mzTol rtTol (some q) p =
      some (p, combinedScore mz rt mzTol rtTol p) := by
  simp [fmStep, hc, hlt]

theorem fmStep_some_ge_eq (mz rt mzTol rtTol : ℚ) (p : XPeak) (q : XPeak × ℚ)
    (hc : withinBounds mz rt mzTol rtTol p = true)
    (hge : ¬ combinedScore mz rt mzTol rtTol p < q.2) :
    fmStep mz rt mzTol rtTol (some q) p = some q := by
  simp [fmStep, hc, hge]

theorem fmStep_skip_eq (mz rt mzTol rtTol : ℚ) (p : XPeak)
    (acc : Option (XPeak × ℚ))
    (hc : withinBounds mz rt mzTol rtTol p = false) :
    fmStep mz rt mzTol rtTol acc p = acc := by
  simp [fmStep, hc]

theorem fmStep_inv (mz rt mzTol rtTol : ℚ) (seen : List XPeak)
    (acc : Option (XPeak × ℚ)) (p : XPeak)
    (h : FMInv mz rt mzTol rtTol seen acc) :
    FMInv mz rt mzTol rtTol (seen ++ [p]) (fmStep mz rt mzTol rtTol acc p) := by
  by_cases hc : withinBounds mz rt mzTol rtTol p = true
  · cases acc with
    | none =>
        have h0 : ∀ q ∈ seen, withinBounds mz rt mzTol rtTol q = false := h
        rw [fmStep_none_eq mz rt mzTol rtTol p hc]
        show withinBounds mz rt mzTol rtTol p = true ∧ _
        refine ⟨hc, rfl, ?_, seen, [], by simp, ?_⟩
        · intro x hx hxc
          rcases List.mem_append.1 hx with hx | hx
          · rw [h0 x hx] at hxc; cases hxc
          · simp only [List.mem_singleton] at hx
            subst hx; exact le_refl _
        · intro x hx hxc
          rw [h0 x hx] at hxc; cases hxc
    | some q =>
        obtain ⟨hq, hqs, hmin, l1, l2, hdecomp, hstrict⟩ := h
        by_cases hlt : combinedScore mz rt mzTol rtTol p < q.2
        · rw [fmStep_some_lt_eq mz rt mzTol rtTol p q hc hlt]
          show withinBounds mz rt mzTol rtTol p = true ∧ _
          refine ⟨hc, rfl, ?_, seen, [], by simp, ?_⟩
          · intro x hx hxc
            rcases List.mem_append.1 hx with hx | hx
            · exact le_of_lt (lt_of_lt_of_le hlt (hmin x hx hxc))
            · simp only [List.mem_singleton] at hx
              subst hx; exact le_refl _
          · intro x hx hxc
            exact lt_of_lt_of_le hlt (hmin x hx hxc)
        · rw [fmStep_some_ge_eq mz rt mzTol rtTol p q hc hlt]
          refine ⟨hq, hqs, ?_, l1, l2 ++ [p], by simp [hdecomp], hstrict⟩
          intro x hx hxc
          rcases List.mem_append.1 hx with hx | hx
          · exact hmin x hx hxc
          · simp only [List.mem_singleton] at hx
            subst hx
            exact le_of_not_lt hlt
  · have hc' : withinBounds mz rt mzTol rtTol p = false := by
      simpa using hc
    rw [fmStep_skip_eq mz rt mzTol rtTol p acc hc']
    cases acc with
    | none =>
        intro q hq
        rcases List.mem_append.1 hq with hq | hq
        · exact h q hq
        · simp only [List.mem_singleton] at hq
          subst hq; exact hc'
    | some q =>
        obtain ⟨hq, hqs, hmin, l1, l2, hdecomp, hstrict⟩ := h
        refine ⟨hq, hqs, ?_, l1, l2 ++ [p], by simp [hdecomp], hstrict⟩
        intro x hx hxc
        rcases List.mem_append.1 hx with hx | hx
        · exact hmin x hx hxc
        · simp only [List.mem_singleton] at hx
          subst hx
          rw [hc'] at hxc; cases hxc

theorem foldl_fmStep_inv (mz rt mzTol rtTol : ℚ) :
    ∀ (l seen : List XPeak) (acc : Option (XPeak × ℚ)),
      FMInv mz rt mzTol rtTol seen acc →
      FMInv mz rt mzTol rtTol (seen ++ l)
        (l.foldl (fmStep mz rt mzTol rtTol) acc)
  | [], seen, acc, h => by simpa using h
  | p :: t, seen, acc, h => by
      have h1 := fmStep_inv mz rt mzTol rtTol seen acc p h
      have h2 := foldl_fmStep_inv mz rt mzTol rtTol t (seen ++ [p])
        (fmStep mz rt mzTol rtTol acc p) h1
      simpa [List.append_assoc] using h2

theorem find_matching_inv (peaks : List XPeak) (mz rt mzTol rtTol : ℚ) :
    FMInv mz rt mzTol rtTol peaks
      (peaks.foldl (fmStep mz rt mzTol rtTol) none) := by
  have h := foldl_fmStep_inv mz rt mzTol rtTol peaks [] none (by intro q hq; simp at hq)
  simpa using h

/-- Characterization of the `None` result of `find_matching_xcms_peak`. -/
theorem find_matching_none_iff (peaks : List XPeak) (mz rt mzTol rtTol : ℚ) :
    find_matching_xcms_peak peaks mz rt mzTol rtTol = none ↔
      ∀ p ∈ peaks, withinBounds mz rt mzTol rtTol p = false := by
  have hinv := find_matching_inv peaks mz rt mzTol rtTol
  unfold find_matching_xcms_peak
  cases hacc : peaks.foldl (fmStep mz rt mzTol rtTol) none with
  | none =>
      rw [hacc] at hinv
      constructor
      · intro _
        exact hinv
      · intro _
        rfl
  | some q =>
      rw [hacc] at hinv
      obtain ⟨hq, _, _, l1, l2, hdecomp, _⟩ := hinv
      constructor
      · intro hmap
        cases hmap
      · intro hall
        have hmem : q.1 ∈ peaks := by
          rw [hdecomp]
          exact List.mem_append.2 (Or.inr (List.mem_cons_self _ _))
        rw [hall q.1 hmem] at hq
        cases hq

/-- Properties of a `some` result of `find_matching_xcms_peak`: it is a
candidate, minimizes the combined score among candidates, and every earlier
candidate scores strictly worse. -/
theorem find_matching_some_props (peaks : List XPeak) (mz rt mzTol rtTol : ℚ)
    (p : XPeak) (h : find_matching_xcms_peak peaks mz rt mzTol rtTol = some p) :
    withinBounds mz rt mzTol rtTol p = true ∧
    (∀ x ∈ peaks, withinBounds mz rt mzTol rtTol x = true →
      combinedScore mz rt mzTol rtTol p ≤ combinedScore mz rt mzTol rtTol x) ∧
    ∃ l1 l2, peaks = l1 ++ p :: l2 ∧
      ∀ x ∈ l1, withinBounds mz rt mzTol rtTol x = true →
        combinedScore mz rt mzTol rtTol p < combinedScore mz rt mzTol rtTol x := by
  have hinv := find_matching_inv peaks mz rt mzTol rtTol
  unfold find_matching_xcms_peak at h
  cases hacc : peaks.foldl (fmStep mz rt mzTol rtTol) none with
  | none =>
      rw [hacc] at h
      exact absurd h (by intro hcon; cases hcon)
  | some q =>
      rw [hacc] at h hinv
      have hqp : q.1 = p := by
        have h2 : some q.1 = some p := h
        injection h2
      obtain ⟨hq, hqs, hmin, l1, l2, hdecomp, hstrict⟩ := hinv
      subst hqp
      rw [hqs] at hmin hstrict
      exact ⟨hq, hmin, l1, l2, hdecomp, hstrict⟩

theorem findFirstUnused_some (tol q : ℚ) (used : Finset ℕ) :
    ∀ (L : List (ℕ × ℚ)) (j : ℕ), findFirstUnused tol q used L = some j →
      j ∉ used ∧ ∃ m, (j, m) ∈ L ∧ near tol q m = true
  | [], j, h => by cases h
  | (k, m) :: rest, j, h => by
      by_cases hk : k ∈ used
      · have h2 : findFirstUnused tol q used rest = some j := by
          rw [findFirstUnused, if_pos hk] at h
          exact h
        obtain ⟨h1, m2, hmem, hnear⟩ := findFirstUnused_some tol q used rest j h2
        exact ⟨h1, m2, List.mem_cons_of_mem _ hmem, hnear⟩
      · by_cases hn : near tol q m = true
        · rw [findFirstUnused, if_neg hk, if_pos hn] at h
          have hj : k = j := by injection h
          subst hj
          exact ⟨hk, m, List.mem_cons_self _ _, hn⟩
        · have h2 : findFirstUnused tol q used rest = some j := by
            rw [findFirstUnused, if_neg hk, if_neg hn] at h
            exact h
          obtain ⟨h1, m2, hmem, hnear⟩ := findFirstUnused_some tol q used rest j h2
          exact ⟨h1, m2, List.mem_cons_of_mem _ hmem, hnear⟩

theorem findFirstUnused_isSome (tol q : ℚ) (used : Finset ℕ) :
    ∀ (L : List (ℕ × ℚ)), (∃ p ∈ L, p.1 ∉ used ∧ near tol q p.2 = true) →
      (findFirstUnused tol q used L).isSome = true
  | [], h => by
      obtain ⟨p, hp, _⟩ := h
      cases hp
  | (k, m) :: rest, h => by
      by_cases hk : k ∈ used
      · rw [findFirstUnused, if_pos hk]
        apply findFirstUnused_isSome tol q used rest
        obtain ⟨p, hp, h1, h2⟩ := h
        rcases List.mem_cons.1 hp with hp | hp
        · subst hp
          exact absurd hk h1
        · exact ⟨p, hp, h1, h2⟩
      · by_cases hn : near tol q m = true
        · rw [findFirstUnused, if_neg hk, if_pos hn]
          rfl
        · rw [findFirstUnused, if_neg hk, if_neg hn]
          apply findFirstUnused_isSome tol q used rest
          obtain ⟨p, hp, h1, h2⟩ := h
          rcases List.mem_cons.1 hp with hp | hp
          · subst hp
            exact absurd h2 hn
          · exact ⟨p, hp, h1, h2⟩

theorem findFirstUnused_none (tol q : ℚ) (used : Finset ℕ) :
    ∀ (L : List (ℕ × ℚ)), (∀ p ∈ L, near tol q p.2 = false) →
      findFirstUnused tol q used L = none
  | [], _ => rfl
  | (k, m) :: rest, h => by
      have hn : near tol q m = false := h (k, m) (List.mem_cons_self _ _)
      have hrest := findFirstUnused_none tol q used rest
        (fun p hp => h p (List.mem_cons_of_mem _ hp))
      by_cases hk : k ∈ used
      · rw [findFirstUnused, if_pos hk]
        exact hrest
      · rw [findFirstUnused, if_neg hk, if_neg (by simp [hn]), hrest]

/-- Each query peak contributes at most one match. -/
theorem countAux_le_query_length (tol : ℚ) (lib : List ℚ) :
    ∀ (qs : List ℚ) (used : Finset ℕ), countAux tol lib qs used ≤ qs.length
  | [], _ => le_refl _
  | q :: qs, used => by
      rw [countAux]
      cases hf : findFirstUnused tol q used lib.enum with
      | some j =>
          simpa [List.length_cons, Nat.add_comm] using
            Nat.add_le_add_left (countAux_le_query_length tol lib qs (insert j used)) 1
      | none =>
          exact le_trans (countAux_le_query_length tol lib qs used)
            (Nat.le_succ _)

/-- Each successful match claims a fresh in-range library index. -/
theorem countAux_le_free_card (tol : ℚ) (lib : List ℚ) :
    ∀ (qs : List ℚ) (used : Finset ℕ),
      countAux tol lib qs used ≤ (Finset.range lib.length \ used).card
  | [], _ => Nat.zero_le _
  | q :: qs, used => by
      rw [countAux]
      cases hf : findFirstUnused tol q used lib.enum with
      | some j =>
          obtain ⟨hju, m, hmem, _⟩ := findFirstUnused_some tol q used lib.enum j hf
          have hjlt : j < lib.length := by
            have := List.mk_mem_enum_iff_getElem?.1 hmem
            exact (List.getElem?_eq_some.1 this).1
          have hjfree : j ∈ Finset.range lib.length \ used := by
            simp [Finset.mem_sdiff, Finset.mem_range, hjlt, hju]
          have hset : Finset.range lib.length \ insert j used =
              (Finset.range lib.length \ used).erase j := by
            ext x
            simp only [Finset.mem_sdiff, Finset.mem_insert, Finset.mem_erase,
              Finset.mem_range]
            tauto
          have hcard : 1 ≤ (Finset.range lib.length \ used).card :=
            Finset.card_pos.2 ⟨j, hjfree⟩
          have hrec := countAux_le_free_card tol lib qs (insert j used)
          rw [hset, Finset.card_erase_of_mem hjfree] at hrec
          show 1 + countAux tol lib qs (insert j used) ≤ _
          omega
      | none =>
          exact countAux_le_free_card tol lib qs used

/-- C4: the greedy matched-peak count of `count_matched_peaks` is at most
`min(len(query.peaks), len(library.peaks))` — each query peak contributes
at most one match and each library peak is claimed at most once. -/
theorem count_matched_peaks_le_min (mz1 mz2 : List ℚ) (tol : ℚ) :
    count_matched_peaks mz1 mz2 tol ≤ min mz1.length mz2.length := by
  apply le_min
  · exact countAux_le_query_length tol mz2 mz1 ∅
  · have h := countAux_le_free_card tol mz2 mz1 ∅
    simpa using h

/-- Under the library-side one-to-one condition (each library peak within
tolerance of at most one query peak, with multiplicity), the greedy count
equals the number of query peaks having some library peak within tolerance,
independent of the claimed-index set provided the claimed indices are
incompatible with every remaining query peak. -/
theorem countAux_eq_countP (tol : ℚ) (lib : List ℚ) :
    ∀ (qs : List ℚ) (used : Finset ℕ),
      (∀ m ∈ lib, qs.countP (fun q => near tol q m) ≤ 1) →
      (∀ j (hj : j < lib.length), j ∈ used →
        ∀ q ∈ qs, near tol q (lib.get ⟨j, hj⟩) = false) →
      countAux tol lib qs used =
        qs.countP (fun q => lib.any (fun m => near tol q m))
  | [], used, _, _ => by simp [countAux]
  | q :: qs, used, Hl, Hused => by
      rw [countAux]
      by_cases hany : lib.any (fun m => near tol q m) = true
      · obtain ⟨m, hm, hnear⟩ := List.any_eq_true.1 hany
        obtain ⟨i, hilt, hi⟩ := List.mem_iff_getElem.1 hm
        have hwit : (i, m) ∈ lib.enum := by
          apply List.mk_mem_enum_iff_getElem?.2
          rw [List.getElem?_eq_getElem hilt, hi]
        have hi_notused : i ∉ used := by
          intro hin
          have hfalse := Hused i hilt hin q (List.mem_cons_self _ _)
          rw [List.get_eq_getElem, hi] at hfalse
          rw [hfalse] at hnear
          cases hnear
        have hsome : (findFirstUnused tol q used lib.enum).isSome = true :=
          findFirstUnused_isSome tol q used lib.enum ⟨(i, m), hwit, hi_notused, hnear⟩
        obtain ⟨j, hj⟩ := Option.isSome_iff_exists.1 hsome
        rw [hj]
        obtain ⟨hju, m2, hmem2, hnear2⟩ := findFirstUnused_some tol q used lib.enum j hj
        have hjget : lib[j]? = some m2 := List.mk_mem_enum_iff_getElem?.1 hmem2
        obtain ⟨hjlt, hjval⟩ := List.getElem?_eq_some.1 hjget
        have hm2mem : m2 ∈ lib := by
          rw [← hjval]
          exact List.getElem_mem hjlt
        have hqs0 : qs.countP (fun q2 => near tol q2 m2) = 0 := by
          have h1 := Hl m2 hm2mem
          rw [List.countP_cons_of_pos _ _ (by exact hnear2)] at h1
          omega
        have Hused2 : ∀ k (hk : k < lib.length), k ∈ insert j used →
            ∀ q2 ∈ qs, near tol q2 (lib.get ⟨k, hk⟩) = false := by
          intro k hk hkin q2 hq2
          rcases Finset.mem_insert.1 hkin with hkj | hkold
          · subst hkj
            rw [List.get_eq_getElem, hjval]
            simpa using List.countP_eq_zero.1 hqs0 q2 hq2
          · exact Hused k hk hkold q2 (List.mem_cons_of_mem _ hq2)
        have Hl2 : ∀ m3 ∈ lib, qs.countP (fun q2 => near tol q2 m3) ≤ 1 := by
          intro m3 hm3
          have h1 := Hl m3 hm3
          rw [List.countP_cons] at h1
          omega
        show 1 + countAux tol lib qs (insert j used) = _
        rw [countAux_eq_countP tol lib qs (insert j used) Hl2 Hused2]
        rw [List.countP_cons_of_pos _ _ (by exact hany)]
        omega
      · have hnone : findFirstUnused tol q used lib.enum = none := by
          apply findFirstUnused_none
          intro p hp
          obtain ⟨j2, m3⟩ := p
          have h1 := List.mk_mem_enum_iff_getElem?.1 hp
          obtain ⟨hlt, hval⟩ := List.getElem?_eq_some.1 h1
          have hpm : m3 ∈ lib := by
            rw [← hval]
            exact List.getElem_mem hlt
          have h2 := List.any_eq_false.1 (by simpa using hany) m3 hpm
          simpa using h2
        rw [hnone]
        have Hused2 : ∀ k (hk : k < lib.length), k ∈ used →
            ∀ q2 ∈ qs, near tol q2 (lib.get ⟨k, hk⟩) = false := by
          intro k hk hkin q2 hq2
          exact Hused k hk hkin q2 (List.mem_cons_of_mem _ hq2)
        have Hl2 : ∀ m3 ∈ lib, qs.countP (fun q2 => near tol q2 m3) ≤ 1 := by
          intro m3 hm3
          have h1 := Hl m3 hm3
          rw [List.countP_cons] at h1
          omega
        show countAux tol lib qs used = _
        rw [countAux_eq_countP tol lib qs used Hl2 Hused2]
        rw [List.countP_cons_of_neg _ _ (by simp [hany])]

/-- Under the library-side one-to-one condition, `count_matched_peaks` is
the number of query peaks having a library peak within tolerance. -/
theorem count_matched_peaks_eq_countP (mz1 mz2 : List ℚ) (tol : ℚ)
    (Hl : ∀ m ∈ mz2, mz1.countP (fun q => near tol q m) ≤ 1) :
    count_matched_peaks mz1 mz2 tol =
      mz1.countP (fun q => mz2.any (fun m => near tol q m)) := by
  apply countAux_eq_countP tol mz2 mz1 ∅ Hl
  intro j hj hjin
  simp at hjin

theorem pairwise_tieOrdered_orderedInsert (a : MatchEntry) :
    ∀ (l : List MatchEntry), l.Pairwise tieOrdered →
      (∀ b ∈ l, a.libOrder < b.libOrder) →
      (List.orderedInsert scoreGE a l).Pairwise tieOrdered
  | [], _, _ => List.pairwise_singleton _ _
  | b :: bs, hl, ha => by
      rw [List.orderedInsert]
      obtain ⟨hb, hbs⟩ := List.pairwise_cons.1 hl
      by_cases hr : scoreGE a b
      · rw [if_pos hr]
        refine List.pairwise_cons.2 ⟨?_, hl⟩
        intro c hc
        rcases List.mem_cons.1 hc with hc | hc
        · subst hc
          exact ⟨hr, fun _ => ha c (List.mem_cons_self _ _)⟩
        · have hbc := hb c hc
          exact ⟨le_trans hbc.1 hr, fun _ => ha c (List.mem_cons_of_mem _ hc)⟩
      · rw [if_neg hr]
        have hab : a.score < b.score := lt_of_not_le hr
        refine List.pairwise_cons.2 ⟨?_, ?_⟩
        · intro c hc
          rcases (List.mem_orderedInsert scoreGE).1 hc with hc | hc
          · subst hc
            exact ⟨le_of_lt hab, fun heq => absurd heq.symm (ne_of_lt hab)⟩
          · exact hb c hc
        · exact pairwise_tieOrdered_orderedInsert a bs hbs
            (fun c hc => ha c (List.mem_cons_of_mem _ hc))

theorem pairwise_tieOrdered_insertionSort :
    ∀ (l : List MatchEntry), l.Pairwise (fun a b => a.libOrder < b.libOrder) →
      (List.insertionSort scoreGE l).Pairwise tieOrdered
  | [], _ => List.Pairwise.nil
  | x :: xs, h => by
      obtain ⟨hx, hxs⟩ := List.pairwise_cons.1 h
      rw [List.insertionSort]
      apply pairwise_tieOrdered_orderedInsert x _
        (pairwise_tieOrdered_insertionSort xs hxs)
      intro b hb
      exact hx b ((List.perm_insertionSort scoreGE xs).mem_iff.1 hb)

theorem buildMatches_libOrder_le (pair : ℚ → QuerySpec → LibSpec → Option ℚ)
    (alg : String) (mzTol minScore : ℚ) (i : ℕ) (q : QuerySpec) :
    ∀ (lib : List LibSpec) (j : ℕ),
      ∀ e ∈ buildMatches pair alg mzTol minScore i q lib j, j ≤ e.libOrder
  | [], _, e, he => by cases he
  | l :: rest, j, e, he => by
      rw [buildMatches] at he
      have step : ∀ e2 ∈ buildMatches pair alg mzTol minScore i q rest (j + 1),
          j ≤ e2.libOrder := fun e2 he2 =>
        le_trans (Nat.le_succ j)
          (buildMatches_libOrder_le pair alg mzTol minScore i q rest (j + 1) e2 he2)
      cases hp : pair mzTol q l with
      | none =>
          simp only [hp] at he
          exact step e he
      | some s =>
          simp only [hp] at he
          by_cases hs : s < minScore
          · rw [if_pos hs] at he
            exact step e he
          · rw [if_neg hs] at he
            rcases List.mem_cons.1 he with he | he
            · subst he
              exact le_refl _
            · exact step e he

theorem buildMatches_pairwise_libOrder
    (pair : ℚ → QuerySpec → LibSpec → Option ℚ) (alg : String)
    (mzTol minScore : ℚ) (i : ℕ) (q : QuerySpec) :
    ∀ (lib : List LibSpec) (j : ℕ),
      (buildMatches pair alg mzTol minScore i q lib j).Pairwise
        (fun a b => a.libOrder < b.libOrder)
  | [], _ => List.Pairwise.nil
  | l :: rest, j => by
      rw [buildMatches]
      have hrec := buildMatches_pairwise_libOrder pair alg mzTol minScore i q rest (j + 1)
      split
      · exact hrec
      · split
        · exact hrec
        · refine List.pairwise_cons.2 ⟨?_, hrec⟩
          intro b hb
          exact lt_of_lt_of_le (Nat.lt_succ_self j)
            (buildMatches_libOrder_le pair alg mzTol minScore i q rest (j + 1) b hb)

theorem buildMatches_mem_props (pair : ℚ → QuerySpec → LibSpec → Option ℚ)
    (alg : String) (mzTol minScore : ℚ) (i : ℕ) (q : QuerySpec) :
    ∀ (lib : List LibSpec) (j : ℕ),
      ∀ e ∈ buildMatches pair alg mzTol minScore i q lib j,
        minScore ≤ e.score ∧ e.algorithm = alg
  | [], _, e, he => by cases he
  | l :: rest, j, e, he => by
      rw [buildMatches] at he
      cases hp : pair mzTol q l with
      | none =>
          simp only [hp] at he
          exact buildMatches_mem_props pair alg mzTol minScore i q rest (j + 1) e he
      | some s =>
          simp only [hp] at he
          by_cases hs : s < minScore
          · rw [if_pos hs] at he
            exact buildMatches_mem_props pair alg mzTol minScore i q rest (j + 1) e he
          · rw [if_neg hs] at he
            rcases List.mem_cons.1 he with he | he
            · subst he
              exact ⟨le_of_not_lt hs, rfl⟩
            · exact buildMatches_mem_props pair alg mzTol minScore i q rest (j + 1) e he

/-- The per-query guarantees of `match_with_traditional`: every kept score
is at least `min_score` and tagged with the chosen algorithm; the list is
sorted non-increasingly by score with ties in insertion order; at most
`top_n` entries; `best_match` is the head of the list. -/
theorem processQuery_props (pair : ℚ → QuerySpec → LibSpec → Option ℚ)
    (alg : String) (mzTol minScore : ℚ) (topN : ℕ) (i : ℕ) (q : QuerySpec)
    (lib : List LibSpec) :
    (∀ m ∈ (processQuery pair alg mzTol minScore topN i q lib).matchList,
      minScore ≤ m.score ∧ m.algorithm = alg) ∧
    (processQuery pair alg mzTol minScore topN i q lib).matchList.Pairwise tieOrdered ∧
    (processQuery pair alg mzTol minScore topN i q lib).matchList.length ≤ topN ∧
    (processQuery pair alg mzTol minScore topN i q lib).bestMatch =
      (processQuery pair alg mzTol minScore topN i q lib).matchList.head? := by
  refine ⟨?_, ?_, ?_, rfl⟩
  · intro m hm
    have hm2 : m ∈ List.insertionSort scoreGE
        (buildMatches pair alg mzTol minScore i q lib 0) :=
      List.mem_of_mem_take hm
    have hm3 : m ∈ buildMatches pair alg mzTol minScore i q lib 0 :=
      (List.perm_insertionSort scoreGE _).mem_iff.1 hm2
    exact buildMatches_mem_props pair alg mzTol minScore i q lib 0 m hm3
  · apply List.Pairwise.sublist (List.take_sublist _ _)
    exact pairwise_tieOrdered_insertionSort _
      (buildMatches_pairwise_libOrder pair alg mzTol minScore i q lib 0)
  · exact List.length_take_le _ _

theorem withinBounds_iff (mz rt mzTol rtTol : ℚ) (p : XPeak) :
    withinBounds mz rt mzTol rtTol p = true ↔
      (|p.mz - mz| ≤ mzTol ∧ |p.rt - rt| ≤ rtTol) := by
  simp [withinBounds]

theorem withinBounds_eq_false_iff (mz rt mzTol rtTol : ℚ) (p : XPeak) :
    withinBounds mz rt mzTol rtTol p = false ↔
      ¬(|p.mz - mz| ≤ mzTol ∧ |p.rt - rt| ≤ rtTol) := by
  rw [Bool.eq_false_iff]
  exact not_congr (withinBounds_iff mz rt mzTol rtTol p)

theorem find?_first_decomp {α : Type} (p : α → Bool) :
    ∀ (l : List α) (a : α), l.find? p = some a →
      ∃ l1 l2, l = l1 ++ a :: l2 ∧ ∀ x ∈ l1, p x = false
  | [], a, h => by cases h
  | b :: t, a, h => by
      by_cases hb : p b = true
      · rw [List.find?_cons_of_pos _ hb] at h
        have hba : b = a := by injection h
        subst hba
        exact ⟨[], t, rfl, by intro x hx; cases hx⟩
      · have hb2 : p b = false := by simpa using hb
        rw [List.find?_cons_of_neg _ (by simp [hb2])] at h
        obtain ⟨l1, l2, hd, hf⟩ := find?_first_decomp p t a h
        refine ⟨b :: l1, l2, by rw [hd]; rfl, ?_⟩
        intro x hx
        rcases List.mem_cons.1 hx with hx | hx
        · subst hx
          exact hb2
        · exact hf x hx

/-- C1: for every feature list, query (mz, rt) and tolerances (positive,
as in any real run), `find_matching_xcms_peak` returns `None` exactly when
no feature satisfies both `|feature.mz − mz| ≤ mz_tolerance` and
`|feature.rt − rt| ≤ rt_tolerance`; otherwise it returns a feature
satisfying both bounds that minimizes the combined distance
`|Δmz|/mz_tolerance + |Δrt|/rt_tolerance` over all candidates, ties going
to the earliest-encountered candidate (every earlier candidate scores
strictly worse). -/
theorem find_matching_xcms_peak_spec (peaks : List XPeak) (mz rt mzTol rtTol : ℚ)
    (hmz : 0 < mzTol) (hrt : 0 < rtTol) :
    (find_matching_xcms_peak peaks mz rt mzTol rtTol = none ↔
      ∀ p ∈ peaks, ¬(|p.mz - mz| ≤ mzTol ∧ |p.rt - rt| ≤ rtTol)) ∧
    (∀ p, find_matching_xcms_peak peaks mz rt mzTol rtTol = some p →
      (|p.mz - mz| ≤ mzTol ∧ |p.rt - rt| ≤ rtTol) ∧
      (∀ x ∈ peaks, |x.mz - mz| ≤ mzTol ∧ |x.rt - rt| ≤ rtTol →
        combinedScore mz rt mzTol rtTol p ≤ combinedScore mz rt mzTol rtTol x) ∧
      ∃ l1 l2, peaks = l1 ++ p :: l2 ∧
        ∀ x ∈ l1, |x.mz - mz| ≤ mzTol ∧ |x.rt - rt| ≤ rtTol →
          combinedScore mz rt mzTol rtTol p < combinedScore mz rt mzTol rtTol x) := by
  constructor
  · rw [find_matching_none_iff]
    constructor
    · intro h p hp
      exact (withinBounds_eq_false_iff mz rt mzTol rtTol p).1 (h p hp)
    · intro h p hp
      exact (withinBounds_eq_false_iff mz rt mzTol rtTol p).2 (h p hp)
  · intro p hp
    obtain ⟨hc, hmin, l1, l2, hd, hs⟩ :=
      find_matching_some_props peaks mz rt mzTol rtTol p hp
    refine ⟨(withinBounds_iff mz rt mzTol rtTol p).1 hc, ?_, l1, l2, hd, ?_⟩
    · intro x hx hxb
      exact hmin x hx ((withinBounds_iff mz rt mzTol rtTol x).2 hxb)
    · intro x hx hxb
      exact hs x hx ((withinBounds_iff mz rt mzTol rtTol x).2 hxb)

/-- Witness for C1 at a concrete input: tolerances 0.01/30 are positive
and the returned feature (the exact-match `cexB`, preferred over the
earlier but farther `cexA`) satisfies both bounds. -/
theorem find_matching_xcms_peak_spec_witness :
    (0 : ℚ) < 0.01 ∧ (0 : ℚ) < 30 ∧
    (|cexB.mz - 100| ≤ (0.01 : ℚ) ∧ |cexB.rt - 10| ≤ 30) :=
  ⟨by norm_num, by norm_num,
    ((find_matching_xcms_peak_spec [cexA, cexB] 100 10 0.01 30 (by norm_num)
        (by norm_num)).2 cexB
      (by norm_num [find_matching_xcms_peak, fmStep, withinBounds,
        combinedScore, cexA, cexB, abs])).1⟩

/-- C9 counterexample: with features `cexA` (0.009 Da off, first) and
`cexB` (exact match, second) and query (100, 10), the secondary lookup of
`process_matching_results` resolves to `cexA` — the first feature within
both default-tolerance bounds — while the §4.2 locator
`find_matching_xcms_peak` returns the strictly nearer `cexB`; the claimed
equivalence fails. -/
theorem find_peak_by_mz_rt_not_nearest :
    (processResult [cexA, cexB] "cosine" cexQR).xcmsPeak = some cexA ∧
    find_matching_xcms_peak [cexA, cexB] 100 10 (0.01 : ℚ) 30 = some cexB ∧
    cexA ≠ cexB := by
  refine ⟨?_, ?_, by simp [cexA, cexB]⟩
  · norm_num [processResult, cexQR, get_peak_info, pyTruthyQ, cexA, cexB,
      find_peak_by_mz_rt, withinBounds, List.find?, abs]
    rfl
  · norm_num [find_matching_xcms_peak, fmStep, withinBounds, combinedScore,
      cexA, cexB, abs]

/-- C9 amended: the secondary lookup `find_peak_by_mz_rt` (invoked by
`process_matching_results` with the §4.2 default tolerances 0.01/30 when
the tagged feature name is unknown and precursor m/z and RT are truthy)
uses the same AND-bound as the Feature Locator and returns `None` exactly
when `find_matching_xcms_peak` does, but it returns the *first* feature
within both bounds rather than the combined-distance minimizer; the two
coincide whenever at most one feature lies within both bounds. -/
theorem find_peak_by_mz_rt_first_in_bounds (peaks : List XPeak)
    (mz rt mzTol rtTol : ℚ) :
    ((find_peak_by_mz_rt peaks mz rt mzTol rtTol).isSome ↔
      (find_matching_xcms_peak peaks mz rt mzTol rtTol).isSome) ∧
    (∀ p, find_peak_by_mz_rt peaks mz rt mzTol rtTol = some p →
      (|p.mz - mz| ≤ mzTol ∧ |p.rt - rt| ≤ rtTol) ∧
      ∃ l1 l2, peaks = l1 ++ p :: l2 ∧
        ∀ x ∈ l1, ¬(|x.mz - mz| ≤ mzTol ∧ |x.rt - rt| ≤ rtTol)) ∧
    ((∀ p ∈ peaks, ∀ q ∈ peaks, withinBounds mz rt mzTol rtTol p = true →
        withinBounds mz rt mzTol rtTol q = true → p = q) →
      find_peak_by_mz_rt peaks mz rt mzTol rtTol =
        find_matching_xcms_peak peaks mz rt mzTol rtTol) ∧
    (∀ (xcms : List XPeak) (alg : String) (r : QueryResult),
      get_peak_info xcms (r.featureName.getD ("Feature_" ++ toString r.queryIndex)) = none →
      pyTruthyQ r.precursorMz = true → pyTruthyQ r.retentionTime = true →
      (processResult xcms alg r).xcmsPeak =
        find_peak_by_mz_rt xcms (r.precursorMz.getD 0) (r.retentionTime.getD 0)
          (0.01 : ℚ) (30 : ℚ)) := by
  have h1 : (find_peak_by_mz_rt peaks mz rt mzTol rtTol).isSome ↔
      (find_matching_xcms_peak peaks mz rt mzTol rtTol).isSome := by
    constructor
    · intro h
      obtain ⟨x, hx, hpx⟩ := List.find?_isSome.1 h
      rw [Option.isSome_iff_ne_none]
      intro hn
      rw [(find_matching_none_iff peaks mz rt mzTol rtTol).1 hn x hx] at hpx
      cases hpx
    · intro h
      have hne := Option.isSome_iff_ne_none.1 h
      have hex : ¬∀ p ∈ peaks, withinBounds mz rt mzTol rtTol p = false :=
        fun hall => hne ((find_matching_none_iff peaks mz rt mzTol rtTol).2 hall)
      push_neg at hex
      obtain ⟨p, hp, hb⟩ := hex
      exact List.find?_isSome.2 ⟨p, hp, by simpa using hb⟩
  refine ⟨h1, ?_, ?_, ?_⟩
  · intro p hp
    have hb := List.find?_some hp
    obtain ⟨l1, l2, hd, hf⟩ := find?_first_decomp _ peaks p hp
    refine ⟨(withinBounds_iff mz rt mzTol rtTol p).1 hb, l1, l2, hd, ?_⟩
    intro x hx
    exact (withinBounds_eq_false_iff mz rt mzTol rtTol x).1 (hf x hx)
  · intro huniq
    cases hfm : find_matching_xcms_peak peaks mz rt mzTol rtTol with
    | none =>
        have hall := (find_matching_none_iff peaks mz rt mzTol rtTol).1 hfm
        apply List.find?_eq_none.2
        intro x hx hpx
        rw [hall x hx] at hpx
        cases hpx
    | some p2 =>
        obtain ⟨hc2, _, l1, l2, hd, _⟩ :=
          find_matching_some_props peaks mz rt mzTol rtTol p2 hfm
        have hp2mem : p2 ∈ peaks := by
          rw [hd]
          exact List.mem_append.2 (Or.inr (List.mem_cons_self _ _))
        have hsome : (find_peak_by_mz_rt peaks mz rt mzTol rtTol).isSome :=
          h1.2 (by rw [hfm]; rfl)
        obtain ⟨p, hp⟩ := Option.isSome_iff_exists.1 hsome
        have hpb := List.find?_some hp
        have hpmem := List.mem_of_find?_eq_some hp
        rw [hp, huniq p hpmem p2 hp2mem hpb hc2]
  · intro xcms alg r hget htr1 htr2
    simp [processResult, hget, htr1, htr2]

/-- Witness for C9's amended theorem: on a single-feature table the
first-in-bounds lookup and the nearest-feature locator agree. -/
theorem find_peak_by_mz_rt_first_in_bounds_witness :
    find_peak_by_mz_rt [cexB] 100 10 (0.01 : ℚ) 30 =
      find_matching_xcms_peak [cexB] 100 10 (0.01 : ℚ) 30 :=
  (find_peak_by_mz_rt_first_in_bounds [cexB] 100 10 0.01 30).2.2.1
    (by
      intro p hp q hq _ _
      rw [List.mem_singleton.1 hp, List.mem_singleton.1 hq])

theorem clamp01_nonneg (x : ℚ) : 0 ≤ clamp01 x :=
  le_min (by norm_num) (le_max_left 0 x)

theorem clamp01_le_one (x : ℚ) : clamp01 x ≤ 1 :=
  min_le_left 1 (max 0 x)

/-- C2 counterexample: at two candidates with scores 1 and 0 (best first,
full peak coverage), the code computes 0.75 — the consistency "boost"
`min(0.2, (avg_top3 − base) * 0.5)` is −0.25 here — while the claim's
formula with the inner `max(0, ·)` yields 1. -/
theorem calculate_confidence_score_spec_counterexample :
    2 ≤ ([cexE1, cexE2] : List MatchEntry).length ∧ 0 < cexE1.totalPeaks ∧
    calculate_confidence_score [cexE1, cexE2] (some cexE1) = 3 / 4 ∧
    specConfidenceFormula [cexE1, cexE2] cexE1 = 1 ∧
    calculate_confidence_score [cexE1, cexE2] (some cexE1) ≠
      specConfidenceFormula [cexE1, cexE2] cexE1 := by
  have h1 : calculate_confidence_score [cexE1, cexE2] (some cexE1) = 3 / 4 := by
    norm_num [calculate_confidence_score, clamp01, cexE1, cexE2]
  have h2 : specConfidenceFormula [cexE1, cexE2] cexE1 = 1 := by
    norm_num [specConfidenceFormula, clamp01, cexE1, cexE2]
  refine ⟨by norm_num, by norm_num [cexE1], h1, h2, ?_⟩
  rw [h1, h2]
  norm_num

/-- C2 amended: with at least 2 candidates and a best match with a
positive total peak count, `calculate_confidence_score` equals
clamp-to-[0,1] of
`(base + min(0.2, (avg_top3 − base) * 0.5)) * (0.5 + 0.5 * matched/total)`
where `base` is the best match's score and `avg_top3` the mean of the
first (up to) 3 candidate scores — exactly the claim's formula except that
the consistency boost has no inner `max(0, ·)` and may be negative (it is
never more than 0.2). -/
theorem calculate_confidence_score_closed_form (ms : List MatchEntry)
    (b : MatchEntry) (h2 : 2 ≤ ms.length) (ht : 0 < b.totalPeaks) :
    calculate_confidence_score ms (some b) =
      clamp01 ((b.score + min (0.2 : ℚ)
          ((((ms.take 3).map (fun m => m.score)).sum /
              (((ms.take 3).map (fun m => m.score)).length : ℚ) - b.score) *
            (0.5 : ℚ))) *
        ((0.5 : ℚ) + (0.5 : ℚ) * ((b.matchedPeaks : ℚ) / (b.totalPeaks : ℚ)))) := by
  simp only [calculate_confidence_score]
  rw [if_pos (by omega : 1 < ms.length), if_pos ht]

/-- Witness for C2's amended theorem at the counterexample input. -/
theorem calculate_confidence_score_closed_form_witness :
    2 ≤ ([cexE1, cexE2] : List MatchEntry).length ∧ 0 < cexE1.totalPeaks ∧
    calculate_confidence_score [cexE1, cexE2] (some cexE1) =
      clamp01 ((cexE1.score + min (0.2 : ℚ)
          (((([cexE1, cexE2].take 3).map (fun m => m.score)).sum /
              (((([cexE1, cexE2].take 3).map (fun m => m.score)).length : ℚ)) -
              cexE1.score) * (0.5 : ℚ))) *
        ((0.5 : ℚ) + (0.5 : ℚ) *
          ((cexE1.matchedPeaks : ℚ) / (cexE1.totalPeaks : ℚ)))) :=
  ⟨by norm_num, by norm_num [cexE1],
    calculate_confidence_score_closed_form [cexE1, cexE2] cexE1 (by norm_num)
      (by norm_num [cexE1])⟩

theorem match_with_traditional_ok (dp cos mc : ℚ → QuerySpec → LibSpec → Option ℚ)
    (alg : String) (qs : List QuerySpec) (lib : List LibSpec)
    (mzTol minScore : ℚ) (topN : ℕ) (rs : List QueryResult)
    (h : match_with_traditional dp cos mc alg qs lib mzTol minScore topN =
      Except.ok rs) :
    ∀ r ∈ rs,
      (∀ m ∈ r.matchList, minScore ≤ m.score ∧ m.algorithm = alg) ∧
      r.matchList.Pairwise tieOrdered ∧
      r.matchList.length ≤ topN ∧
      r.bestMatch = r.matchList.head? := by
  have hrun : ∃ pair, rs = runTraditional pair alg qs lib mzTol minScore topN := by
    unfold match_with_traditional at h
    by_cases h1 : alg = "dot_product"
    · rw [if_pos h1] at h
      injection h with h
      exact ⟨dp, h.symm⟩
    · rw [if_neg h1] at h
      by_cases h2 : alg = "cosine"
      · rw [if_pos h2] at h
        injection h with h
        exact ⟨cos, h.symm⟩
      · rw [if_neg h2] at h
        by_cases h3 : alg = "modified_cosine"
        · rw [if_pos h3] at h
          injection h with h
          exact ⟨mc, h.symm⟩
        · rw [if_neg h3] at h
          cases h
  obtain ⟨pair, rfl⟩ := hrun
  intro r hr
  obtain ⟨⟨i, q⟩, hiq, rfl⟩ := List.mem_map.1 hr
  have hp := processQuery_props pair alg mzTol minScore topN i q lib
  exact ⟨hp.1, hp.2.1, hp.2.2.1, hp.2.2.2⟩

/-- C5: every per-query result of a successful `match_with_traditional`
run has: no match below `min_score`; matches sorted in non-increasing
score order with equal-score entries in their original library insertion
order (`tieOrdered`); at most `top_n` entries; and `best_match` equal to
the head of the list (`None` exactly when the list is empty). -/
theorem match_with_traditional_ranking
    (dp cos mc : ℚ → QuerySpec → LibSpec → Option ℚ) (alg : String)
    (qs : List QuerySpec) (lib : List LibSpec) (mzTol minScore : ℚ)
    (topN : ℕ) (rs : List QueryResult)
    (h : match_with_traditional dp cos mc alg qs lib mzTol minScore topN =
      Except.ok rs) :
    ∀ r ∈ rs,
      (∀ m ∈ r.matchList, minScore ≤ m.score) ∧
      r.matchList.Pairwise tieOrdered ∧
      r.matchList.length ≤ topN ∧
      r.bestMatch = r.matchList.head? := by
  intro r hr
  have hp := match_with_traditional_ok dp cos mc alg qs lib mzTol minScore topN rs h r hr
  exact ⟨fun m hm => (hp.1 m hm).1, hp.2.1, hp.2.2.1, hp.2.2.2⟩

/-- Witness for C5 on a concrete one-query, one-library run of the cosine
strategy, instantiated at the single returned query result. -/
theorem match_with_traditional_ranking_witness :
    (processQuery cexPair "cosine" (0.01 : ℚ) 0 10 0 cexQ [cexL]).matchList.Pairwise
      tieOrdered ∧
    (processQuery cexPair "cosine" (0.01 : ℚ) 0 10 0 cexQ [cexL]).matchList.length ≤ 10 ∧
    (processQuery cexPair "cosine" (0.01 : ℚ) 0 10 0 cexQ [cexL]).bestMatch =
      (processQuery cexPair "cosine" (0.01 : ℚ) 0 10 0 cexQ [cexL]).matchList.head? :=
  have h := match_with_traditional_ranking cexPair cexPair cexPair "cosine" [cexQ]
    [cexL] 0.01 0 10 _ rfl
    (processQuery cexPair "cosine" (0.01 : ℚ) 0 10 0 cexQ [cexL])
    (List.mem_singleton.2 rfl)
  ⟨h.2.1, h.2.2.1, h.2.2.2⟩

/-- C7: `calculate_confidence_score` always lands in [0,1]; it is exactly
0 whenever `best_match` is absent; and in every successful
`match_with_traditional` run, a query whose match list is empty has
`best_match = None` and confidence 0. -/
theorem calculate_confidence_score_bounds :
    (∀ (ms : List MatchEntry) (b : Option MatchEntry),
      0 ≤ calculate_confidence_score ms b ∧ calculate_confidence_score ms b ≤ 1) ∧
    (∀ ms : List MatchEntry, calculate_confidence_score ms none = 0) ∧
    (∀ (dp cos mc : ℚ → QuerySpec → LibSpec → Option ℚ) (alg : String)
      (qs : List QuerySpec) (lib : List LibSpec) (mzTol minScore : ℚ)
      (topN : ℕ) (rs : List QueryResult),
      match_with_traditional dp cos mc alg qs lib mzTol minScore topN =
        Except.ok rs →
      ∀ r ∈ rs, r.matchList = [] →
        r.bestMatch = none ∧
        calculate_confidence_score r.matchList r.bestMatch = 0) := by
  refine ⟨?_, fun _ => rfl, ?_⟩
  · intro ms b
    cases b with
    | none => exact ⟨le_refl 0, by norm_num [calculate_confidence_score]⟩
    | some b =>
        constructor
        · simp only [calculate_confidence_score]
          exact clamp01_nonneg _
        · simp only [calculate_confidence_score]
          exact clamp01_le_one _
  · intro dp cos mc alg qs lib mzTol minScore topN rs h r hr hempty
    have hp := match_with_traditional_ok dp cos mc alg qs lib mzTol minScore topN rs h r hr
    have hbest : r.bestMatch = none := by
      rw [hp.2.2.2, hempty]
      rfl
    refine ⟨hbest, ?_⟩
    rw [hbest]
    rfl

/-- Witness for C7: a run against an empty library yields one result with
an empty match list, `best_match = None` and confidence exactly 0. -/
theorem calculate_confidence_score_bounds_witness :
    (processQuery cexPair "cosine" (0.01 : ℚ) 0 10 0 cexQ []).bestMatch = none ∧
    calculate_confidence_score
      (processQuery cexPair "cosine" (0.01 : ℚ) 0 10 0 cexQ []).matchList
      (processQuery cexPair "cosine" (0.01 : ℚ) 0 10 0 cexQ []).bestMatch = 0 :=
  calculate_confidence_score_bounds.2.2 cexPair cexPair cexPair "cosine" [cexQ] []
    0.01 0 10 _ rfl (processQuery cexPair "cosine" 0.01 0 10 0 cexQ [])
    (List.mem_singleton.2 rfl) rfl

/-- C10: for every algorithm string other than the three known ones,
`match_with_traditional` fails with `Unknown algorithm` — uniformly in the
query list, library and similarity functions, i.e. before scoring any
pair — and for the three known strings it always returns a result. -/
theorem match_with_traditional_unknown_algorithm
    (dp cos mc : ℚ → QuerySpec → LibSpec → Option ℚ) (alg : String)
    (qs : List QuerySpec) (lib : List LibSpec) (mzTol minScore : ℚ)
    (topN : ℕ) :
    (alg ≠ "dot_product" → alg ≠ "cosine" → alg ≠ "modified_cosine" →
      match_with_traditional dp cos mc alg qs lib mzTol minScore topN =
        Except.error ("Unknown algorithm: " ++ alg)) ∧
    (alg = "dot_product" ∨ alg = "cosine" ∨ alg = "modified_cosine" →
      ∃ rs, match_with_traditional dp cos mc alg qs lib mzTol minScore topN =
        Except.ok rs) := by
  constructor
  · intro h1 h2 h3
    unfold match_with_traditional
    rw [if_neg h1, if_neg h2, if_neg h3]
  · rintro (h | h | h) <;> subst h
    · exact ⟨_, rfl⟩
    · exact ⟨_, rfl⟩
    · exact ⟨_, rfl⟩

/-- Witness for C10: the unknown name "ms2query" is rejected with the
exact error message, while "cosine" succeeds. -/
theorem match_with_traditional_unknown_algorithm_witness :
    match_with_traditional cexPair cexPair cexPair "ms2query" [] [] 1 0 10 =
      Except.error ("Unknown algorithm: " ++ "ms2query") ∧
    ∃ rs, match_with_traditional cexPair cexPair cexPair "cosine" [] [] 1 0 10 =
      Except.ok rs :=
  ⟨(match_with_traditional_unknown_algorithm cexPair cexPair cexPair "ms2query"
      [] [] 1 0 10).1 (by decide) (by decide) (by decide),
    (match_with_traditional_unknown_algorithm cexPair cexPair cexPair "cosine"
      [] [] 1 0 10).2 (Or.inr (Or.inl rfl))⟩

/-- C3 counterexample: the greedy count is not permutation-invariant.
Against library m/z [1, 3] at tolerance 1, the query list [0, 2] matches
2 peaks but its permutation [2, 0] matches only 1 (the query peak 2
greedily claims library peak 1, starving query peak 0). -/
theorem count_matched_peaks_order_counterexample :
    List.Perm [(2 : ℚ), 0] [0, 2] ∧
    count_matched_peaks [0, 2] [1, 3] 1 = 2 ∧
    count_matched_peaks [2, 0] [1, 3] 1 = 1 := by
  refine ⟨List.Perm.swap 0 2 [], ?_, ?_⟩ <;>
    norm_num [count_matched_peaks, countAux, findFirstUnused, near,
      List.enum, List.enumFrom, abs]

/-- C3 amended: the greedy count can change under permutation of either
peak list (see the counterexample); it is invariant under arbitrary
permutations of the query and the library peak lists whenever each
library peak lies within tolerance of at most one query peak (counted
with multiplicity). -/
theorem count_matched_peaks_perm_invariant (qs lib qs2 lib2 : List ℚ)
    (tol : ℚ)
    (Hl : ∀ m ∈ lib, qs.countP (fun q => near tol q m) ≤ 1)
    (hq : qs2.Perm qs) (hl : lib2.Perm lib) :
    count_matched_peaks qs2 lib2 tol = count_matched_peaks qs lib tol := by
  have Hl2 : ∀ m ∈ lib2, qs2.countP (fun q => near tol q m) ≤ 1 := by
    intro m hm
    rw [hq.countP_eq]
    exact Hl m (hl.mem_iff.1 hm)
  rw [count_matched_peaks_eq_countP qs lib tol Hl,
    count_matched_peaks_eq_countP qs2 lib2 tol Hl2]
  have hpred : ∀ q : ℚ,
      lib2.any (fun m => near tol q m) = lib.any (fun m => near tol q m) := by
    intro q
    cases h : lib.any (fun m => near tol q m) with
    | true =>
        obtain ⟨m, hm, hnear⟩ := List.any_eq_true.1 h
        exact List.any_eq_true.2 ⟨m, hl.mem_iff.2 hm, hnear⟩
    | false =>
        apply List.any_eq_false.2
        intro m hm
        exact List.any_eq_false.1 h m (hl.mem_iff.1 hm)
  simp only [hpred]
  exact hq.countP_eq _

/-- Witness for C3's amended theorem: a one-to-one configuration whose
count survives permutation of both lists. -/
theorem count_matched_peaks_perm_invariant_witness :
    count_matched_peaks [10, 0] [11, 1] 1 = count_matched_peaks [0, 10] [1, 11] 1 :=
  count_matched_peaks_perm_invariant [0, 10] [1, 11] [10, 0] [11, 1] 1
    (by
      intro m hm
      fin_cases hm <;> norm_num [List.countP, List.countP.go, near, abs])
    (List.Perm.swap 0 10 []) (List.Perm.swap 1 11 [])

theorem processSpectrum_some (xcms : List XPeak) (mzTol rtTol minInt : ℚ)
    (s : RawSpectrum) (e : MS2Entry)
    (h : processSpectrum xcms mzTol rtTol minInt s = some e) :
    s.msLevel = 2 ∧
    ∃ pm st, s.precursorMz = some pm ∧ s.scanTimeMinutes = some st ∧
      e.precursorMz = pm ∧ e.rt = st * 60 ∧
      e.peaks = s.peaks.filter (fun p => decide (minInt ≤ p.2)) ∧
      e.peaks ≠ [] ∧
      ∃ f, find_matching_xcms_peak xcms pm (st * 60) mzTol rtTol = some f ∧
        e.featureName = f.name := by
  unfold processSpectrum at h
  by_cases hl : s.msLevel = 2
  · rw [if_pos hl] at h
    cases hpm : s.precursorMz with
    | none =>
        rw [hpm] at h
        cases hst : s.scanTimeMinutes with
        | none => rw [hst] at h; simp at h
        | some st => rw [hst] at h; simp at h
    | some pm =>
        cases hst : s.scanTimeMinutes with
        | none => rw [hpm, hst] at h; simp at h
        | some st =>
            rw [hpm, hst] at h
            have h2 : (if (s.peaks.filter (fun p => decide (minInt ≤ p.2))).isEmpty
                then none
                else
                  match find_matching_xcms_peak xcms pm (st * 60) mzTol rtTol with
                  | some pk =>
                      some (⟨pk.name, pm, st * 60,
                        s.peaks.filter (fun p => decide (minInt ≤ p.2)),
                        (s.peaks.filter (fun p => decide (minInt ≤ p.2))).length,
                        pk.name⟩ : MS2Entry)
                  | none => none) = some e := h

            by_cases hemp : (s.peaks.filter (fun p => decide (minInt ≤ p.2))).isEmpty
            · rw [if_pos hemp] at h2
              cases h2
            · rw [if_neg hemp] at h2
              cases hfind : find_matching_xcms_peak xcms pm (st * 60) mzTol rtTol with
              | none => rw [hfind] at h2; simp at h2
              | some pk =>
                  rw [hfind] at h2
                  have he : (⟨pk.name, pm, st * 60,
                      s.peaks.filter (fun p => decide (minInt ≤ p.2)),
                      (s.peaks.filter (fun p => decide (minInt ≤ p.2))).length,
                      pk.name⟩ : MS2Entry) = e := by
                    injection h2
                  subst he
                  refine ⟨hl, pm, st, rfl, rfl, rfl, rfl, rfl, ?_, pk, hfind, rfl⟩
                  intro hnil
                  rw [← List.isEmpty_iff] at hnil
                  exact hemp (by simpa using hnil)
  · rw [if_neg hl] at h
    cases h

/-- C6: every spectrum emitted by `extract_ms2_spectra` has a non-empty
peak list with every intensity ≥ `min_intensity` and carries the name of
the feature the locator returned for its precursor m/z and RT; spectra
lacking precursor m/z or retention time, spectra with no surviving peak,
and spectra with no locator match are excluded; and a spectrum whose
every peak falls below `min_intensity` is dropped with a result
independent of the feature table (the locator is never consulted). -/
theorem extract_ms2_spectra_invariants (xcms : List XPeak) (raws : List RawSpectrum)
    (mzTol rtTol minInt : ℚ) :
    (∀ e ∈ extract_ms2_spectra raws xcms mzTol rtTol minInt,
      e.peaks ≠ [] ∧ (∀ pk ∈ e.peaks, minInt ≤ pk.2) ∧
      ∃ f, find_matching_xcms_peak xcms e.precursorMz e.rt mzTol rtTol = some f ∧
        e.featureName = f.name) ∧
    (∀ s : RawSpectrum, s.precursorMz = none ∨ s.scanTimeMinutes = none →
      processSpectrum xcms mzTol rtTol minInt s = none) ∧
    (∀ s : RawSpectrum, s.peaks.filter (fun p => decide (minInt ≤ p.2)) = [] →
      processSpectrum xcms mzTol rtTol minInt s = none) ∧
    (∀ (s : RawSpectrum) (pm st : ℚ), s.precursorMz = some pm →
      s.scanTimeMinutes = some st →
      find_matching_xcms_peak xcms pm (st * 60) mzTol rtTol = none →
      processSpectrum xcms mzTol rtTol minInt s = none) ∧
    (∀ s : RawSpectrum, (∀ pk ∈ s.peaks, pk.2 < minInt) →
      processSpectrum xcms mzTol rtTol minInt s = none ∧
      ∀ xcms2 : List XPeak,
        processSpectrum xcms mzTol rtTol minInt s =
          processSpectrum xcms2 mzTol rtTol minInt s) := by
  refine ⟨?_, ?_, ?_, ?_, ?_⟩
  · intro e he
    obtain ⟨s, _, hs⟩ := List.mem_filterMap.1 he
    obtain ⟨_, pm, st, _, _, hepm, hert, hpeaks, hne, f, hfind, hname⟩ :=
      processSpectrum_some xcms mzTol rtTol minInt s e hs
    refine ⟨hne, ?_, f, ?_, hname⟩
    · intro pk hpk
      rw [hpeaks] at hpk
      have := List.of_mem_filter hpk
      exact of_decide_eq_true this
    · rw [hepm, hert]
      exact hfind
  · intro s h
    unfold processSpectrum
    rcases h with h | h
    · rw [h]
      split
      · cases hst : s.scanTimeMinutes <;> simp
      · rfl
    · rw [h]
      split
      · cases hpm : s.precursorMz <;> simp
      · rfl
  · intro s hfilter
    unfold processSpectrum
    split
    · cases hpm : s.precursorMz with
      | none => simp
      | some pm =>
          cases hst : s.scanTimeMinutes with
          | none => simp
          | some st => rw [hfilter]; simp
    · rfl
  · intro s pm st hpm hst hfind
    unfold processSpectrum
    rw [hpm, hst]
    split
    · simp [hfind]
    · rfl
  · intro s hlow
    have hfilter : s.peaks.filter (fun p => decide (minInt ≤ p.2)) = [] := by
      rw [List.filter_eq_nil_iff]
      intro pk hpk
      simpa using not_le.2 (hlow pk hpk)
    constructor
    · unfold processSpectrum
      split
      · cases hpm : s.precursorMz with
        | none => simp
        | some pm =>
            cases hst : s.scanTimeMinutes with
            | none => simp
            | some st => rw [hfilter]; simp
      · rfl
    · intro xcms2
      unfold processSpectrum
      split
      · cases hpm : s.precursorMz with
        | none => simp
        | some pm =>
            cases hst : s.scanTimeMinutes with
            | none => simp
            | some st => rw [hfilter]; simp
      · rfl

/-- Witness for C6 on concrete data: a good MS2 spectrum is kept, tagged
with the exact-match feature `cexB`; and a spectrum whose peaks are all
below the threshold is dropped identically for two different feature
tables. -/
theorem extract_ms2_spectra_invariants_witness :
    ((⟨"B", 100, 10, [(50, 500), (60, 300)], 2, "B"⟩ : MS2Entry).peaks ≠ [] ∧
      (∀ pk ∈ (⟨"B", 100, 10, [(50, 500), (60, 300)], 2, "B"⟩ : MS2Entry).peaks,
        (100 : ℚ) ≤ pk.2) ∧
      ∃ f, find_matching_xcms_peak [cexA, cexB]
          (⟨"B", 100, 10, [(50, 500), (60, 300)], 2, "B"⟩ : MS2Entry).precursorMz
          (⟨"B", 100, 10, [(50, 500), (60, 300)], 2, "B"⟩ : MS2Entry).rt
          (0.01 : ℚ) 30 = some f ∧
        (⟨"B", 100, 10, [(50, 500), (60, 300)], 2, "B"⟩ : MS2Entry).featureName =
          f.name) ∧
    processSpectrum [cexA, cexB] (0.01 : ℚ) 30 100 ⟨2, some 100, some (1/6), [(50, 1)]⟩ =
      none ∧
    processSpectrum [cexA, cexB] (0.01 : ℚ) 30 100 ⟨2, some 100, some (1/6), [(50, 1)]⟩ =
      processSpectrum [] (0.01 : ℚ) 30 100 ⟨2, some 100, some (1/6), [(50, 1)]⟩ := by
  have hthm := extract_ms2_spectra_invariants [cexA, cexB]
    [⟨2, some 100, some (1/6), [(50, 500), (60, 300)]⟩] (0.01 : ℚ) 30 100
  have hlow := (extract_ms2_spectra_invariants [cexA, cexB] [] (0.01 : ℚ) 30 100).2.2.2.2
    ⟨2, some 100, some (1/6), [(50, 1)]⟩ (by intro pk hpk; fin_cases hpk; norm_num)
  refine ⟨?_, hlow.1, hlow.2 []⟩
  apply hthm.1
  norm_num [extract_ms2_spectra, processSpectrum, List.filterMap,
    find_matching_xcms_peak, fmStep, withinBounds, combinedScore, cexA, cexB, abs]

/-- C8: requesting the "ms2query" (learned-ranking) strategy when it is
unavailable makes the workflow fall back to cosine for the whole run: the
run succeeds, the reported algorithm is "cosine", and every returned
match entry and every processed result reports algorithm "cosine" rather
than the requested variant. -/
theorem ms2query_fallback_reports_cosine (ms2qRun : Except String (List QueryResult))
    (dp cos mc : ℚ → QuerySpec → LibSpec → Option ℚ)
    (queries : List QuerySpec) (lib : List LibSpec) (xcms : List XPeak)
    (mzTol minScore : ℚ) (topN : ℕ) :
    ∃ rs prs,
      matchSpectraCore "ms2query" false ms2qRun dp cos mc queries lib xcms
        mzTol minScore topN = Except.ok ("cosine", rs, prs) ∧
      (∀ r ∈ rs, ∀ m ∈ r.matchList, m.algorithm = "cosine") ∧
      (∀ p ∈ prs, p.algorithm = "cosine" ∧
        ∀ m ∈ p.matchList, m.algorithm = "cosine") := by
  have hok : match_with_traditional dp cos mc "cosine" queries lib mzTol minScore topN =
      Except.ok (runTraditional cos "cosine" queries lib mzTol minScore topN) := rfl
  refine ⟨runTraditional cos "cosine" queries lib mzTol minScore topN,
    process_matching_results xcms
      (runTraditional cos "cosine" queries lib mzTol minScore topN) "cosine",
    rfl, ?_, ?_⟩
  · intro r hr m hm
    exact ((match_with_traditional_ok dp cos mc "cosine" queries lib mzTol minScore
      topN _ hok r hr).1 m hm).2
  · intro p hp
    obtain ⟨r, hr, rfl⟩ := List.mem_map.1 hp
    refine ⟨rfl, ?_⟩
    intro m hm
    exact ((match_with_traditional_ok dp cos mc "cosine" queries lib mzTol minScore
      topN _ hok r hr).1 m hm).2


/-- Witness for C8 at a concrete unavailable-ms2query run. -/
theorem ms2query_fallback_reports_cosine_witness :
    ∃ rs prs,
      matchSpectraCore "ms2query" false (Except.error "MS2Query not available")
        cexPair cexPair cexPair [cexQ] [cexL] [cexA, cexB] (0.01 : ℚ) 0 10 =
        Except.ok ("cosine", rs, prs) ∧
      (∀ r ∈ rs, ∀ m ∈ r.matchList, m.algorithm = "cosine") ∧
      (∀ p ∈ prs, p.algorithm = "cosine" ∧
        ∀ m ∈ p.matchList, m.algorithm = "cosine") :=
  ms2query_fallback_reports_cosine (Except.error "MS2Query not available")
    cexPair cexPair cexPair [cexQ] [cexL] [cexA, cexB] 0.01 0 10

end XCMSVis
